import Mathlib

/-!
Verification of the RNTuple reader (`src/uproot/models/RNTuple.py`) and the
TTree cascade writer (`src/uproot/writing/_cascadetree.py`).

Machine integers are embedded as `Nat` bit patterns (with explicit `% 2^w`
and sign helpers) or as `Int` values; byte strings are `List Nat` with each
element a byte value.
-/

/-- Signed interpretation of an 8-bit two's-complement pattern. -/
def toSigned8 (p : Nat) : Int :=
  if p < 2 ^ 7 then (p : Int) else (p : Int) - 2 ^ 8

/-- Signed interpretation of a 32-bit two's-complement pattern. -/
def toSigned32 (p : Nat) : Int :=
  if p < 2 ^ 31 then (p : Int) else (p : Int) - 2 ^ 32

/-- Signed interpretation of a 64-bit two's-complement pattern. -/
def toSigned64 (p : Nat) : Int :=
  if p < 2 ^ 63 then (p : Int) else (p : Int) - 2 ^ 64

/-- Reduce an arbitrary integer to its int32 value (numpy int32 wraparound). -/
def asInt32 (y : Int) : Int :=
  toSigned32 (y.emod (2 ^ 32)).toNat

/-- Arithmetic (sign-propagating) right shift of a 64-bit pattern by `k` bits:
the shift numpy applies to signed int64 arrays. -/
def sar64 (a : Nat) (k : Nat) : Nat :=
  if a < 2 ^ 63 then a / 2 ^ k else a / 2 ^ k + (2 ^ 64 - 2 ^ (64 - k))

/-- 64-bit pattern of the int64 negation of `a` (two's complement). -/
def neg64 (a : Nat) : Nat :=
  (2 ^ 64 - a) % 2 ^ 64

/-- Embedding of `from_zigzag` (RNTuple.py line 32): `n >> 1 ^ -(n & 1)` on an
int64 whose 64-bit pattern is `n`.  numpy `>>` on a signed array is the
arithmetic shift, hence `sar64`. -/
def from_zigzag (n : Nat) : Nat :=
  sar64 n 1 ^^^ neg64 (n &&& 1)

/-- Modelled from the spec: the zig-zag encoder `(x << 1) XOR (x >> 63)`
computed bit-pattern-wise on the 64-bit word `p` (the encoder itself is not in
the source; the spec gives its definition verbatim). -/
def zigzag_encode (p : Nat) : Nat :=
  2 * p % 2 ^ 64 ^^^ sar64 p 63

-- XOR with an all-ones mask is complement within the mask width.
theorem xor_two_pow_sub_one (n : Nat) : ∀ a, a < 2 ^ n → a ^^^ (2 ^ n - 1) = 2 ^ n - 1 - a := by
  induction n with
  | zero =>
    intro a ha
    have h0 : a = 0 := by omega
    subst h0
    rfl
  | succ n ih =>
    intro a ha
    have hpow : (2 : Nat) ^ (n + 1) = 2 * 2 ^ n := by ring
    have hone : 1 ≤ (2 : Nat) ^ n := Nat.one_le_two_pow
    have hM : (2 : Nat) ^ (n + 1) - 1 = Nat.bit true (2 ^ n - 1) := by
      rw [Nat.bit_val]
      simp
      omega
    have hdec := Nat.bit_decide_mod_two_eq_one_shiftRight_one a
    have ha2 : a >>> 1 < 2 ^ n := by
      rw [Nat.shiftRight_eq_div_pow]
      omega
    calc a ^^^ (2 ^ (n + 1) - 1)
        = Nat.bit (decide (a % 2 = 1)) (a >>> 1) ^^^ Nat.bit true (2 ^ n - 1) := by
          rw [hdec, hM]
      _ = Nat.bit ((decide (a % 2 = 1)) != true) (a >>> 1 ^^^ (2 ^ n - 1)) :=
          Nat.xor_bit _ _ _ _
      _ = 2 ^ (n + 1) - 1 - a := by
          rw [ih _ ha2]
          rcases Nat.mod_two_eq_zero_or_one a with h | h
          · have hd : (decide (a % 2 = 1)) = false := by simp [h]
            rw [hd]
            show Nat.bit true (2 ^ n - 1 - a >>> 1) = 2 ^ (n + 1) - 1 - a
            rw [Nat.bit_val, Nat.shiftRight_eq_div_pow]
            simp only [Bool.toNat_true]
            omega
          · have hd : (decide (a % 2 = 1)) = true := by simp [h]
            rw [hd]
            show Nat.bit false (2 ^ n - 1 - a >>> 1) = 2 ^ (n + 1) - 1 - a
            rw [Nat.bit_val, Nat.shiftRight_eq_div_pow]
            simp only [Bool.toNat_false]
            omega

/-- C6 (counterexample): the claim "for every signed 64-bit x,
`from_zigzag` applied to the zig-zag encoding of x yields x" is false at
x = 2^62: the encoding is the pattern 2^63 (int64 minimum), and the
arithmetic shift inside `from_zigzag` sign-extends it, giving -2^62
(pattern 2^62 + 2^63) instead of 2^62. -/
theorem from_zigzag_zigzag_encode_top_bit_fails :
    from_zigzag (zigzag_encode (2 ^ 62)) ≠ 2 ^ 62 := by decide

/-- C6 (amended): for every i64 value x with -2^62 ≤ x < 2^62 (bit pattern
`p < 2^62` or `p ≥ 2^64 - 2^62`, exactly the x whose zig-zag encoding has a
clear top bit, so that the arithmetic and logical shifts agree),
`from_zigzag` is a left inverse of the spec's zig-zag encoder. -/
theorem from_zigzag_zigzag_encode_inrange (p : Nat) (hlt : p < 2 ^ 64)
    (hr : p < 2 ^ 62 ∨ 2 ^ 64 - 2 ^ 62 ≤ p) :
    from_zigzag (zigzag_encode p) = p := by
  have e62 : (2 : Nat) ^ 62 = 4611686018427387904 := by norm_num
  have e63 : (2 : Nat) ^ 63 = 9223372036854775808 := by norm_num
  have e64 : (2 : Nat) ^ 64 = 18446744073709551616 := by norm_num
  rcases hr with hp | hp
  · -- x ≥ 0: the encoding is the even pattern 2*p with clear top bit
    have s1 : sar64 p 63 = 0 := by
      simp only [sar64]
      rw [if_pos (by omega)]
      omega
    have s2 : zigzag_encode p = 2 * p := by
      simp only [zigzag_encode, s1, Nat.xor_zero]
      omega
    have s3 : 2 * p &&& 1 = 0 := by
      rw [Nat.and_one_is_mod]
      omega
    have s4 : sar64 (2 * p) 1 = p := by
      simp only [sar64]
      rw [if_pos (by omega)]
      omega
    simp only [from_zigzag, s2, s3, s4, neg64]
    rw [Nat.sub_zero, Nat.mod_self, Nat.xor_zero]
  · -- x < 0: the encoding is the odd pattern NOT(2*p mod 2^64), top bit clear
    have hp63 : 2 ^ 63 ≤ p := by omega
    have s1 : sar64 p 63 = 2 ^ 64 - 1 := by
      simp only [sar64]
      rw [if_neg (by omega)]
      omega
    have s2 : 2 * p % 2 ^ 64 = 2 * p - 2 ^ 64 := by omega
    have s3 : zigzag_encode p = 2 ^ 64 - 1 - (2 * p - 2 ^ 64) := by
      simp only [zigzag_encode, s1, s2]
      exact xor_two_pow_sub_one 64 _ (by omega)
    have s4 : 2 ^ 64 - 1 - (2 * p - 2 ^ 64) &&& 1 = 1 := by
      rw [Nat.and_one_is_mod]
      omega
    have s5 : neg64 1 = 2 ^ 64 - 1 := by
      simp only [neg64]
      omega
    have s6 : sar64 (2 ^ 64 - 1 - (2 * p - 2 ^ 64)) 1 = 2 ^ 64 - 1 - p := by
      simp only [sar64]
      rw [if_pos (by omega)]
      omega
    simp only [from_zigzag, s3, s4, s5, s6]
    rw [xor_two_pow_sub_one 64 _ (by omega)]
    omega

/-- C6 witness: the amended round trip at the concrete in-range value 3. -/
theorem from_zigzag_zigzag_encode_inrange_witness :
    ((3 : Nat) < 2 ^ 64 ∧ ((3 : Nat) < 2 ^ 62 ∨ 2 ^ 64 - 2 ^ 62 ≤ 3)) ∧
      from_zigzag (zigzag_encode 3) = 3 :=
  ⟨⟨by decide, Or.inl (by decide)⟩,
    from_zigzag_zigzag_encode_inrange 3 (by decide) (Or.inl (by decide))⟩

/-- Embedding of `_split_switch_bits` (RNTuple.py lines 487-490) at a single
64-bit switch word with bit pattern `w`:
`kindex = numpy.bitwise_and(content, 0x00000000000FFFFF)` and
`tags = (content >> 44).astype("int8") - 1`.  The array element is a signed
int64, so `>>` is the arithmetic shift (`sar64`); `astype("int8")` truncates
to the low byte, and the subtraction of 1 wraps in int8 (pattern `+ 255`
mod 256). -/
def _split_switch_bits (w : Nat) : Int × Int :=
  (((w &&& 0xFFFFF : Nat) : Int),
    toSigned8 ((sar64 w 44 % 2 ^ 8 + (2 ^ 8 - 1)) % 2 ^ 8))

/-- C2 (counterexample): the claim "the decoded index equals the low 44 bits
of w" is false at w = 2^20 (a word whose low 44 bits are 2^20): the code masks
with 0xFFFFF, which keeps only 20 bits, so it returns 0. -/
theorem split_switch_bits_claim_fails :
    (_split_switch_bits (2 ^ 20)).1 ≠ ((2 ^ 20 : Nat) : Int) ∧
      (_split_switch_bits (2 ^ 20)).1 = 0 := by decide

/-- C2 (amended): for every 64-bit word `w`, the decoded index equals the low
**20** bits of `w` (`w & 0xFFFFF`, not the low 44 bits), and the decoded tag
equals `(w >> 44) - 1` reduced to a signed 8-bit value: the high-20-bit field
is cast to int8 before the subtraction, so the subtraction wraps modulo 256
(pattern `(w >> 44) + 255` mod 256, reinterpreted as signed). -/
theorem split_switch_bits_low20_int8 (w : Nat) (hw : w < 2 ^ 64) :
    (_split_switch_bits w).1 = ((w % 2 ^ 20 : Nat) : Int) ∧
      (_split_switch_bits w).2 = toSigned8 ((w / 2 ^ 44 + (2 ^ 8 - 1)) % 2 ^ 8) := by
  constructor
  · have hmask : (0xFFFFF : Nat) = 2 ^ 20 - 1 := by norm_num
    simp only [_split_switch_bits, hmask, Nat.and_pow_two_sub_one_eq_mod]
  · have hs : sar64 w 44 % 2 ^ 8 = w / 2 ^ 44 % 2 ^ 8 := by
      simp only [sar64]
      split
      · rfl
      · have e20 : (2 : Nat) ^ (64 - 44) = 1048576 := by norm_num
        have e64 : (2 : Nat) ^ 64 = 18446744073709551616 := by norm_num
        rw [e20, e64]
        generalize w / 2 ^ 44 = q
        omega
    simp only [_split_switch_bits, hs, Nat.mod_add_mod]

/-- C2 witness: the amended decomposition at the concrete word
w = 2^45 + 7 (index field 7, tag field 2). -/
theorem split_switch_bits_low20_int8_witness :
    ((2 ^ 45 + 7 : Nat) < 2 ^ 64) ∧
      ((_split_switch_bits (2 ^ 45 + 7)).1 = (((2 ^ 45 + 7) % 2 ^ 20 : Nat) : Int) ∧
        (_split_switch_bits (2 ^ 45 + 7)).2 =
          toSigned8 (((2 ^ 45 + 7) / 2 ^ 44 + (2 ^ 8 - 1)) % 2 ^ 8)) :=
  ⟨by decide, split_switch_bits_low20_int8 (2 ^ 45 + 7) (by decide)⟩

/-- Modelled from the spec: the column type id of `index32`.  The lookup table
`uproot.const.rntuple_col_type_to_num_dict` is outside the two source files;
the spec places the offset-index columns in the lowest-numbered type band
(`index64 = 1`, `index32 = 2`). -/
def rntuple_index32_id : Nat := 2

/-- Modelled from the spec: running prefix sum (`numpy.cumsum`), used to state
what the delta branch is supposed to produce. -/
def cumsum (l : List Nat) : List Nat :=
  (l.scanl (· + ·) 0).drop 1

/-- Embedding of `read_col_page` (RNTuple.py lines 400-432) downstream of the
page-reading loop.  `pages` holds the decoded content of each page descriptor
(the output `read_pagedesc` writes into `res[tracker:tracker_end]`, already
un-split and bit-unpacked), so the loop amounts to concatenation.  The source
then: returns an empty array when the page list is empty; prepends a 0 when
`dtype_byte <= rntuple_col_type_to_num_dict["index32"]`; maps `from_zigzag`
when `26 <= dtype_byte <= 28`; and for `14 <= dtype_byte <= 15` evaluates
`numpy.cumsum(res)` but discards the result, leaving `res` unchanged. -/
def read_col_page (dtype_byte : Nat) (pages : List (List Nat)) : List Nat :=
  if pages = [] then []
  else
    let res := pages.flatten
    let res2 := if dtype_byte ≤ rntuple_index32_id then 0 :: res else res
    if 26 ≤ dtype_byte ∧ dtype_byte ≤ 28 then res2.map from_zigzag
    else if 14 ≤ dtype_byte ∧ dtype_byte ≤ 15 then res2
    else res2

/-- C1: for a delta column (type id 14), `read_col_page` does **not** return
the running prefix sum: `numpy.cumsum(res)` on line 431 is computed but never
assigned, so the raw decoded elements come back unchanged ([1,2,3] instead of
[1,3,6]). -/
theorem read_col_page_delta_not_summed :
    read_col_page 14 [[1, 2, 3]] = [1, 2, 3] ∧
      read_col_page 14 [[1, 2, 3]] ≠ cumsum [1, 2, 3] ∧
      cumsum [1, 2, 3] = [1, 3, 6] := by decide

/-- C8 (counterexample): the claim fails in two ways.  With a nonempty page
list whose decoded elements are not sorted ([5,3]), the returned buffer
[0,5,3] is not monotonically non-decreasing: the code only prepends a 0 and
never enforces monotonicity.  And with an empty page list the early return
yields an empty buffer with no prepended 0 (length 0, not 0 + 1). -/
theorem read_col_page_offset_not_monotone :
    (read_col_page 2 [[5, 3]] = [0, 5, 3] ∧
      ¬ List.Sorted (· ≤ ·) (read_col_page 2 [[5, 3]])) ∧
      read_col_page 2 [] = [] := by decide

/-- C8 (amended): for every offset-index column (type id ≤ the id of index32)
with a **nonempty page list**, `read_col_page` prepends a single 0 to the
concatenated decoded page elements, so the buffer's length is the total
number of page elements plus one and its first element is 0; the buffer is
monotonically non-decreasing **whenever the concatenated decoded page
elements are** (the elements are unsigned, so the prepended 0 is a lower
bound). -/
theorem read_col_page_offset_leading_zero (dtype_byte : Nat) (pages : List (List Nat))
    (hdb : dtype_byte ≤ rntuple_index32_id) (hne : pages ≠ []) :
    read_col_page dtype_byte pages = 0 :: pages.flatten ∧
      (read_col_page dtype_byte pages).length = (pages.map List.length).sum + 1 ∧
      (read_col_page dtype_byte pages).head? = some 0 ∧
      (List.Sorted (· ≤ ·) pages.flatten →
        List.Sorted (· ≤ ·) (read_col_page dtype_byte pages)) := by
  have hid : rntuple_index32_id = 2 := rfl
  have hz : ¬ (26 ≤ dtype_byte ∧ dtype_byte ≤ 28) := by omega
  have hd : ¬ (14 ≤ dtype_byte ∧ dtype_byte ≤ 15) := by omega
  have hmain : read_col_page dtype_byte pages = 0 :: pages.flatten := by
    simp only [read_col_page, if_neg hne, if_pos hdb, if_neg hz, if_neg hd]
  refine ⟨hmain, ?_, ?_, ?_⟩
  · rw [hmain]
    simp [List.length_flatten]
  · rw [hmain]
    rfl
  · intro hsort
    rw [hmain, List.sorted_cons]
    exact ⟨fun b _ => Nat.zero_le b, hsort⟩

/-- C8 witness: the amended statement at type id 2 with decoded pages
[[0,2],[2,5]] (the jagged-offsets scenario of the spec). -/
theorem read_col_page_offset_leading_zero_witness :
    ((2 : Nat) ≤ rntuple_index32_id ∧ ([[0, 2], [2, 5]] : List (List Nat)) ≠ []) ∧
      (read_col_page 2 [[0, 2], [2, 5]] = 0 :: ([[0, 2], [2, 5]] : List (List Nat)).flatten ∧
        (read_col_page 2 [[0, 2], [2, 5]]).length =
          (([[0, 2], [2, 5]] : List (List Nat)).map List.length).sum + 1 ∧
        (read_col_page 2 [[0, 2], [2, 5]]).head? = some 0 ∧
        (List.Sorted (· ≤ ·) ([[0, 2], [2, 5]] : List (List Nat)).flatten →
          List.Sorted (· ≤ ·) (read_col_page 2 [[0, 2], [2, 5]]))) :=
  ⟨⟨by decide, by decide⟩,
    read_col_page_offset_leading_zero 2 [[0, 2], [2, 5]] (by decide) (by decide)⟩

/-- Embedding of the `page_list_envelopes` property (RNTuple.py lines
200-215).  The cache `self._page_list_envelopes` starts as the falsy `[]`
(modelled `none`); when unset, the loop over `footer.cluster_group_records`
*reassigns* `self._page_list_envelopes = PageLink().read(...)` on every
iteration (`decode` stands for following the record's page-list link and
reading the envelope). -/
def page_list_envelopes {α γ : Type} (cache : Option γ) (decode : α → γ)
    (records : List α) : Option γ :=
  match cache with
  | some v => some v
  | none => records.foldl (fun _acc r => some (decode r)) none

-- A fold that overwrites its accumulator keeps only the last element.
theorem foldl_overwrite {α γ : Type} (decode : α → γ) :
    ∀ (records : List α) (init : Option γ) (h : records ≠ []),
      records.foldl (fun _acc r => some (decode r)) init =
        some (decode (records.getLast h)) := by
  intro records
  induction records with
  | nil => intro init h; exact absurd rfl h
  | cons r rest ih =>
    intro init h
    cases rest with
    | nil => rfl
    | cons s t =>
      show (s :: t).foldl (fun _acc x => some (decode x)) (some (decode r)) = _
      rw [ih (some (decode r)) (List.cons_ne_nil s t)]
      rfl

/-- C9: with no cached value, `page_list_envelopes` returns only the envelope
decoded from the **last** cluster group record; each loop iteration reassigns
the cache, so earlier groups' page lists are discarded. -/
theorem page_list_envelopes_keeps_last {α γ : Type} (decode : α → γ)
    (records : List α) (h : records ≠ []) :
    page_list_envelopes none decode records = some (decode (records.getLast h)) := by
  simp only [page_list_envelopes]
  exact foldl_overwrite decode records none h

/-- C9 witness: two cluster group records 10 and 20 with `decode` doubling;
only the last record's envelope (40) survives. -/
theorem page_list_envelopes_keeps_last_witness :
    (([10, 20] : List Nat) ≠ []) ∧
      page_list_envelopes none (fun r : Nat => 2 * r) [10, 20] =
        some (2 * ([10, 20].getLast (by decide))) :=
  ⟨by decide, page_list_envelopes_keeps_last (fun r : Nat => 2 * r) [10, 20] (by decide)⟩

/-- Little-endian signed 32-bit read at byte position `pos` of `chunk`
(`struct.Struct("<ii")` reads two of these).  Out-of-range bytes default to 0
(the Python source would instead fail to unpack). -/
def readI32LE (chunk : List Nat) (pos : Nat) : Int :=
  toSigned32 (chunk.getD pos 0 % 2 ^ 8 + 2 ^ 8 * (chunk.getD (pos + 1) 0 % 2 ^ 8) +
    2 ^ 16 * (chunk.getD (pos + 2) 0 % 2 ^ 8) + 2 ^ 24 * (chunk.getD (pos + 3) 0 % 2 ^ 8))

/-- Sequential payload reads with a local cursor: `payload chunk pos` returns
the parsed item and the advanced cursor, iterated `count` times (the list
comprehension in `ListFrameReader.read`). -/
def read_items {α : Type} (payload : List Nat → Nat → α × Nat) (chunk : List Nat) :
    Nat → Nat → List α
  | _pos, 0 => []
  | pos, Nat.succ k =>
    (payload chunk pos).1 :: read_items payload chunk (payload chunk pos).2 k

/-- Embedding of `ListFrameReader.read` (RNTuple.py lines 598-611): a local
cursor copy reads the i32 frame size and i32 item count; the size must be
negative (`assert num_bytes < 0`, modelled as an error result); the outer
cursor skips `-num_bytes` from the frame start while the items are read with
the local cursor, which sits just past the 8-byte frame header. -/
def list_frame_read {α : Type} (payload : List Nat → Nat → α × Nat)
    (chunk : List Nat) (cursor : Nat) : Except String (List α × Nat) :=
  let num_bytes := readI32LE chunk cursor
  let num_items := readI32LE chunk (cursor + 4)
  if num_bytes < 0 then
    Except.ok (read_items payload chunk (cursor + 8) num_items.toNat,
      cursor + num_bytes.natAbs)
  else Except.error "AssertionError: list frame size must be negative"

/-- C7: reading a list frame fails with an assertion error when the signed
i32 size header is not negative; on success the outer cursor advances by
exactly |size| bytes from the frame start, and the item payloads are read
with the separate local cursor starting after the 8-byte header. -/
theorem list_frame_read_spec {α : Type} (payload : List Nat → Nat → α × Nat)
    (chunk : List Nat) (cursor : Nat) :
    (0 ≤ readI32LE chunk cursor →
      list_frame_read payload chunk cursor =
        Except.error "AssertionError: list frame size must be negative") ∧
    (readI32LE chunk cursor < 0 →
      list_frame_read payload chunk cursor =
        Except.ok (read_items payload chunk (cursor + 8) (readI32LE chunk (cursor + 4)).toNat,
          cursor + (readI32LE chunk cursor).natAbs)) := by
  constructor
  · intro hnonneg
    simp only [list_frame_read]
    rw [if_neg (by omega)]
  · intro hneg
    simp only [list_frame_read]
    rw [if_pos hneg]

/-- C7 witness: a concrete frame header (size -12, count 1) read at cursor 0
with a payload reader that consumes one byte per item. -/
theorem list_frame_read_spec_witness :
    (readI32LE [244, 255, 255, 255, 1, 0, 0, 0, 7, 7, 7, 7] 0 < 0) ∧
      list_frame_read (fun chunk pos => (chunk.getD pos 0, pos + 1))
          [244, 255, 255, 255, 1, 0, 0, 0, 7, 7, 7, 7] 0 =
        Except.ok
          (read_items (fun chunk pos => (chunk.getD pos 0, pos + 1))
            [244, 255, 255, 255, 1, 0, 0, 0, 7, 7, 7, 7] (0 + 8)
            (readI32LE [244, 255, 255, 255, 1, 0, 0, 0, 7, 7, 7, 7] (0 + 4)).toNat,
          0 + (readI32LE [244, 255, 255, 255, 1, 0, 0, 0, 7, 7, 7, 7] 0).natAbs) :=
  ⟨by decide,
    (list_frame_read_spec (fun chunk pos => (chunk.getD pos 0, pos + 1))
      [244, 255, 255, 255, 1, 0, 0, 0, 7, 7, 7, 7] 0).2 (by decide)⟩

/-- One bit step of the CRC-32 shift register (reflected polynomial
0xEDB88320). -/
def crc32_bit (c : Nat) : Nat :=
  if c % 2 = 1 then c / 2 ^^^ 0xEDB88320 else c / 2

/-- Modelled from the spec: `zlib.crc32` (an external collaborator of the
reader), the standard CRC-32 over a byte string. -/
def zlib_crc32 (bytes : List Nat) : Nat :=
  (bytes.foldl (fun c b => crc32_bit^[8] (c ^^^ b % 2 ^ 8)) 0xFFFFFFFF) ^^^ 0xFFFFFFFF

/-- The two fields of the decoded footer that the `footer` property inspects:
`header_crc32` is read from the footer payload (`FooterReader.read`), and
`crc32` is the trailing u32 the reader consumes at the end of the payload. -/
structure Footer where
  header_crc32 : Nat
  crc32 : Nat
deriving Repr, DecidableEq

/-- Embedding of the `footer` property (RNTuple.py lines 159-174).  `cache`
is `self._footer`; when unset, the decoded footer `f` (the result of
`FooterReader().read` on the footer chunk) must pass
`assert f.header_crc32 == self.header.crc32` and then
`assert f.crc32 == zlib.crc32(self._footer_chunk.raw_data[:-4])` before it is
cached and returned; a failing assert is an error result. -/
def footer_access (cache : Option Footer) (f : Footer) (chunk : List Nat)
    (header_crc : Nat) : Except String (Footer × Option Footer) :=
  match cache with
  | some g => Except.ok (g, some g)
  | none =>
    if f.header_crc32 = header_crc then
      if f.crc32 = zlib_crc32 (chunk.take (chunk.length - 4)) then
        Except.ok (f, some f)
      else Except.error "AssertionError: footer envelope crc32 mismatch"
    else Except.error "AssertionError: header crc32 mismatch"

/-- C3: accessing the footer succeeds exactly when the trailing u32 CRC of
the footer envelope equals the CRC-32 of all footer bytes but the last 4 and
the footer's stored `header_crc32` equals the decoded header's crc32; when
both hold the decoded footer is returned and cached (and a cached footer is
returned as is); otherwise the access fails (assertion error). -/
theorem footer_access_checks (f : Footer) (chunk : List Nat) (header_crc : Nat) :
    (footer_access none f chunk header_crc = Except.ok (f, some f) ↔
      (f.header_crc32 = header_crc ∧
        f.crc32 = zlib_crc32 (chunk.take (chunk.length - 4)))) ∧
    ((∃ r, footer_access none f chunk header_crc = Except.ok r) ↔
      (f.header_crc32 = header_crc ∧
        f.crc32 = zlib_crc32 (chunk.take (chunk.length - 4)))) ∧
    (∀ g : Footer, footer_access (some g) f chunk header_crc = Except.ok (g, some g)) := by
  refine ⟨?_, ?_, fun g => rfl⟩
  · simp only [footer_access]
    split
    · split
      · simp [*]
      · simp [*]
    · simp [*]
  · simp only [footer_access]
    split
    · split
      · simp [*]
      · simp [*]
    · simp [*]

/-- The three per-basket arrays of one branch descriptor
(`datum["fBasketBytes"]`, `datum["fBasketEntry"]`, `datum["fBasketSeek"]` in
`_cascadetree.py`), each pre-sized to the basket capacity. -/
structure BranchData where
  fBasketBytes : List Int
  fBasketEntry : List Int
  fBasketSeek : List Int
deriving Repr, DecidableEq

/-- Resize as the source does it: `numpy.zeros(n)` followed by
`new[: len(old)] = old` — the old contents,
truncated to `n` and padded with zeros up to length `n`. -/
def list_resize (n : Nat) (xs : List Int) : List Int :=
  xs.take n ++ List.replicate (n - xs.length) 0

/-- The new capacity computed on `Tree.extend`'s growth path
(`_cascadetree.py` lines 426-429):
`max(old + 1, int(math.ceil(old * resize_factor)))`.  The Python float
`resize_factor` is embedded as a rational. -/
def new_basket_capacity (cap : Nat) (rf : ℚ) : Nat :=
  max (cap + 1) (Int.toNat ⌈(cap : ℚ) * rf⌉)

/-- The per-branch body of the growth loop (`_cascadetree.py` lines 431-447):
the three arrays are re-allocated at the new capacity with the old contents
copied in, and `fBasketEntry[len(old fBasketEntry)]` is set to the tree's
current `num_entries`. -/
def grow_branch (newcap num_entries : Nat) (d : BranchData) : BranchData :=
  { fBasketBytes := list_resize newcap d.fBasketBytes
    fBasketEntry := (list_resize newcap d.fBasketEntry).set d.fBasketEntry.length
      (num_entries : Int)
    fBasketSeek := list_resize newcap d.fBasketSeek }

/-- Embedding of the capacity check at the top of `Tree.extend`
(`_cascadetree.py` lines 425-447): grow exactly when
`num_baskets >= basket_capacity - 1` (Python int arithmetic, hence `Int`). -/
def grow_if_needed (num_baskets num_entries cap : Nat) (rf : ℚ)
    (bs : List BranchData) : Nat × List BranchData :=
  if (cap : Int) - 1 ≤ (num_baskets : Int) then
    (new_basket_capacity cap rf, bs.map (grow_branch (new_basket_capacity cap rf) num_entries))
  else (cap, bs)

theorem list_resize_append (n : Nat) (xs : List Int) (h : xs.length ≤ n) :
    list_resize n xs = xs ++ List.replicate (n - xs.length) 0 := by
  rw [list_resize, List.take_of_length_le h]

theorem list_resize_length (n : Nat) (xs : List Int) (h : xs.length ≤ n) :
    (list_resize n xs).length = n := by
  rw [list_resize_append n xs h]
  simp
  omega

theorem list_resize_take (n : Nat) (xs : List Int) (h : xs.length ≤ n) :
    (list_resize n xs).take xs.length = xs := by
  rw [list_resize_append n xs h, List.take_left]

theorem list_resize_set_past (n : Nat) (xs : List Int) (v : Int) (h : xs.length < n) :
    (list_resize n xs).set xs.length v =
      xs ++ (List.replicate (n - xs.length) 0).set 0 v := by
  rw [list_resize_append n xs (le_of_lt h), List.set_append]
  rw [if_neg (by omega)]
  simp

/-- C4: when `num_baskets >= basket_capacity - 1`, `Tree.extend` grows the
capacity to `max(old + 1, ceil(old * resize_factor))`; every branch's three
per-basket arrays are resized to the new capacity preserving their old
contents, and `fBasketEntry` at index `old_capacity` (the first slot past the
old length) becomes the current `num_entries`; otherwise capacity and arrays
are unchanged. -/
theorem extend_capacity_growth (num_baskets num_entries cap : Nat) (rf : ℚ)
    (bs : List BranchData) :
    (((cap : Int) - 1 ≤ (num_baskets : Int) →
      grow_if_needed num_baskets num_entries cap rf bs =
        (new_basket_capacity cap rf,
          bs.map (grow_branch (new_basket_capacity cap rf) num_entries)) ∧
      new_basket_capacity cap rf = max (cap + 1) (Int.toNat ⌈(cap : ℚ) * rf⌉) ∧
      (∀ d : BranchData, d.fBasketBytes.length = cap → d.fBasketEntry.length = cap →
        d.fBasketSeek.length = cap →
        (grow_branch (new_basket_capacity cap rf) num_entries d).fBasketBytes.length =
            new_basket_capacity cap rf ∧
          (grow_branch (new_basket_capacity cap rf) num_entries d).fBasketEntry.length =
            new_basket_capacity cap rf ∧
          (grow_branch (new_basket_capacity cap rf) num_entries d).fBasketSeek.length =
            new_basket_capacity cap rf ∧
          (grow_branch (new_basket_capacity cap rf) num_entries d).fBasketBytes.take cap =
            d.fBasketBytes ∧
          (grow_branch (new_basket_capacity cap rf) num_entries d).fBasketEntry.take cap =
            d.fBasketEntry ∧
          (grow_branch (new_basket_capacity cap rf) num_entries d).fBasketSeek.take cap =
            d.fBasketSeek ∧
          (grow_branch (new_basket_capacity cap rf) num_entries d).fBasketEntry[cap]? =
            some (num_entries : Int)))) ∧
    ((num_baskets : Int) < (cap : Int) - 1 →
      grow_if_needed num_baskets num_entries cap rf bs = (cap, bs)) := by
  have hlt : cap < new_basket_capacity cap rf :=
    lt_of_lt_of_le (Nat.lt_succ_self cap) (le_max_left _ _)
  constructor
  · intro hgrow
    refine ⟨?_, rfl, ?_⟩
    · rw [grow_if_needed, if_pos hgrow]
    · intro d h1 h2 h3
      have hle : cap ≤ new_basket_capacity cap rf := le_of_lt hlt
      have hset : (list_resize (new_basket_capacity cap rf) d.fBasketEntry).set
          d.fBasketEntry.length (num_entries : Int) =
          d.fBasketEntry ++
            (List.replicate (new_basket_capacity cap rf - cap) 0).set 0 (num_entries : Int) := by
        rw [list_resize_set_past _ _ _ (h2 ▸ hlt), h2]
      refine ⟨?_, ?_, ?_, ?_, ?_, ?_, ?_⟩
      · exact list_resize_length _ _ (h1 ▸ hle)
      · show ((list_resize _ d.fBasketEntry).set _ _).length = _
        rw [List.length_set]
        exact list_resize_length _ _ (h2 ▸ hle)
      · exact list_resize_length _ _ (h3 ▸ hle)
      · show (list_resize _ d.fBasketBytes).take cap = d.fBasketBytes
        rw [← h1]
        exact list_resize_take _ _ (h1 ▸ hle)
      · show ((list_resize _ d.fBasketEntry).set _ _).take cap = d.fBasketEntry
        rw [hset, ← h2, List.take_left]
      · show (list_resize _ d.fBasketSeek).take cap = d.fBasketSeek
        rw [← h3]
        exact list_resize_take _ _ (h3 ▸ hle)
      · show ((list_resize _ d.fBasketEntry).set _ _)[cap]? = some (num_entries : Int)
        rw [hset, List.getElem?_append_right (by omega), h2, Nat.sub_self]
        rw [List.getElem?_set_self]
        simp
        omega
  · intro hsmall
    rw [grow_if_needed, if_neg (by omega)]

/-- C4 witness: a tree with capacity 2, one basket, 5 entries, resize factor
2, and one branch whose arrays have length 2 hits the growth path. -/
theorem extend_capacity_growth_witness :
    ((2 : Int) - 1 ≤ (1 : Nat) ∧
      grow_if_needed 1 5 2 (2 : ℚ) [⟨[7, 8], [0, 3], [9, 10]⟩] =
        (new_basket_capacity 2 (2 : ℚ),
          [(⟨[7, 8], [0, 3], [9, 10]⟩ : BranchData)].map
            (grow_branch (new_basket_capacity 2 (2 : ℚ)) 5))) :=
  ⟨by norm_num,
    ((extend_capacity_growth 1 5 2 (2 : ℚ) [⟨[7, 8], [0, 3], [9, 10]⟩]).1
      (by norm_num)).1⟩

/-- Tree-level counters patched at the end of `Tree.extend`
(`_cascadetree.py` lines 708-709). -/
structure TreeState where
  num_entries : Nat
  num_baskets : Nat
deriving Repr, DecidableEq

/-- One step of the validation loop over `actual_branches`
(`_cascadetree.py` lines 558-569): `num_entries` starts as `None`; the first
branch sets it; any later branch with a different array length raises
`ValueError`. -/
def extend_check_step (acc : Except String (Option Nat)) (b : String × Nat) :
    Except String (Option Nat) :=
  match acc with
  | Except.error e => Except.error e
  | Except.ok none => Except.ok (some b.2)
  | Except.ok (some n) =>
    if n = b.2 then Except.ok (some n)
    else Except.error "ValueError: extend must fill every branch with the same number of entries"

/-- The whole validation loop: branches are the (name, array length) pairs of
`actual_branches`, which holds exactly the non-record branches. -/
def extend_num_entries (branches : List (String × Nat)) : Except String (Option Nat) :=
  branches.foldl extend_check_step (Except.ok none)

/-- Embedding of the `Tree.extend` slice from the validation loop to the
counter update (`_cascadetree.py` lines 558-709): the validation loop builds
`tofill` but performs no sink writes; only after it succeeds does the basket
loop write one basket per branch (returned here as the list of written branch
names), and then `num_entries` grows by the common length and `num_baskets`
by one.  An error therefore returns before any basket is written. -/
def tree_extend (st : TreeState) (branches : List (String × Nat)) :
    Except String (TreeState × List String) :=
  match extend_num_entries branches with
  | Except.error e => Except.error e
  | Except.ok none => Except.error "TypeError: num_entries is None"
  | Except.ok (some n) =>
    Except.ok ({ num_entries := st.num_entries + n, num_baskets := st.num_baskets + 1 },
      branches.map Prod.fst)

theorem extend_check_fold_error (e : String) :
    ∀ l : List (String × Nat), l.foldl extend_check_step (Except.error e) = Except.error e := by
  intro l
  induction l with
  | nil => rfl
  | cons b rest ih => exact ih

theorem extend_check_fold_some (n : Nat) :
    ∀ l : List (String × Nat), (∀ b ∈ l, b.2 = n) →
      l.foldl extend_check_step (Except.ok (some n)) = Except.ok (some n) := by
  intro l
  induction l with
  | nil => intro _; rfl
  | cons b rest ih =>
    intro h
    have hb : b.2 = n := h b (List.mem_cons_self b rest)
    show rest.foldl extend_check_step (extend_check_step (Except.ok (some n)) b) = _
    rw [extend_check_step, if_pos hb.symm]
    exact ih (fun x hx => h x (List.mem_cons_of_mem b hx))

theorem extend_check_fold_mismatch (n : Nat) :
    ∀ l : List (String × Nat), (∃ b ∈ l, b.2 ≠ n) →
      l.foldl extend_check_step (Except.ok (some n)) =
        Except.error "ValueError: extend must fill every branch with the same number of entries" := by
  intro l
  induction l with
  | nil => rintro ⟨b, hb, _⟩; exact absurd hb (List.not_mem_nil b)
  | cons b rest ih =>
    rintro ⟨c, hc, hcn⟩
    show rest.foldl extend_check_step (extend_check_step (Except.ok (some n)) b) = _
    by_cases hb : b.2 = n
    · rw [extend_check_step, if_pos hb.symm]
      rcases List.mem_cons.mp hc with hcb | hcrest
      · exact absurd (hcb ▸ hb) hcn
      · exact ih ⟨c, hcrest, hcn⟩
    · rw [extend_check_step, if_neg (fun hn => hb hn.symm)]
      exact extend_check_fold_error _ rest

/-- C10: if two provided (non-record) branch arrays have different lengths,
`Tree.extend` raises `ValueError` during input validation — the embedding
returns the error with no basket written, since writes only appear in the
success result; on success the entry counter grows by exactly the common
array length (and one basket per branch is written). -/
theorem tree_extend_validates (st : TreeState) (branches : List (String × Nat)) :
    (∀ b1 ∈ branches, ∀ b2 ∈ branches, b1.2 ≠ b2.2 →
      tree_extend st branches =
        Except.error "ValueError: extend must fill every branch with the same number of entries") ∧
    (∀ n : Nat, (∀ b ∈ branches, b.2 = n) → branches ≠ [] →
      tree_extend st branches =
        Except.ok ({ num_entries := st.num_entries + n, num_baskets := st.num_baskets + 1 },
          branches.map Prod.fst)) := by
  constructor
  · intro b1 hb1 b2 hb2 hne
    cases branches with
    | nil => exact absurd hb1 (List.not_mem_nil b1)
    | cons b0 rest =>
      have hmis : ∃ c ∈ rest, c.2 ≠ b0.2 := by
        by_contra hall
        push_neg at hall
        have h1 : b1.2 = b0.2 := by
          rcases List.mem_cons.mp hb1 with h | h
          · rw [h]
          · exact hall b1 h
        have h2 : b2.2 = b0.2 := by
          rcases List.mem_cons.mp hb2 with h | h
          · rw [h]
          · exact hall b2 h
        exact hne (h1.trans h2.symm)
      have hfold : extend_num_entries (b0 :: rest) =
          Except.error "ValueError: extend must fill every branch with the same number of entries" := by
        show rest.foldl extend_check_step (extend_check_step (Except.ok none) b0) = _
        exact extend_check_fold_mismatch b0.2 rest hmis
      rw [tree_extend, hfold]
  · intro n hall hne
    cases branches with
    | nil => exact absurd rfl hne
    | cons b0 rest =>
      have hb0 : b0.2 = n := hall b0 (List.mem_cons_self b0 rest)
      have hfold : extend_num_entries (b0 :: rest) = Except.ok (some n) := by
        show rest.foldl extend_check_step (extend_check_step (Except.ok none) b0) = _
        rw [extend_check_step, hb0]
        exact extend_check_fold_some n rest (fun x hx => hall x (List.mem_cons_of_mem b0 hx))
      rw [tree_extend, hfold]

/-- C10 witness: branches "a" (1 entry) and "b" (2 entries) make
`Tree.extend` fail with the ValueError; no basket is written. -/
theorem tree_extend_validates_witness :
    ((("a", 1) : String × Nat) ∈ [(("a", 1) : String × Nat), ("b", 2)] ∧
      (("b", 2) : String × Nat) ∈ [(("a", 1) : String × Nat), ("b", 2)] ∧
      (1 : Nat) ≠ 2) ∧
      tree_extend ⟨0, 0⟩ [("a", 1), ("b", 2)] =
        Except.error "ValueError: extend must fill every branch with the same number of entries" :=
  ⟨⟨by decide, by decide, by decide⟩,
    (tree_extend_validates ⟨0, 0⟩ [("a", 1), ("b", 2)]).1 ("a", 1) (by decide) ("b", 2)
      (by decide) (by decide)⟩

/-- Big-endian 2-byte serialization. -/
def u16be (n : Nat) : List Nat :=
  [n / 2 ^ 8 % 2 ^ 8, n % 2 ^ 8]

/-- Big-endian 4-byte serialization. -/
def u32be (n : Nat) : List Nat :=
  [n / 2 ^ 24 % 2 ^ 8, n / 2 ^ 16 % 2 ^ 8, n / 2 ^ 8 % 2 ^ 8, n % 2 ^ 8]

/-- Big-endian 4-byte serialization of a signed value (two's complement). -/
def i32be (x : Int) : List Nat :=
  u32be (x.emod (2 ^ 32)).toNat

/-- Big-endian 8-byte serialization of a signed value (two's complement). -/
def i64be (x : Int) : List Nat :=
  u32be ((x.emod (2 ^ 64)).toNat / 2 ^ 32) ++ u32be ((x.emod (2 ^ 64)).toNat % 2 ^ 32)

/-- Modelled from the spec: `uproot.reading._key_format_big` (outside the two
source files), the big-endian key header of §4.9: length, version, object
length, datime, key-header length, cycle, seek self, seek parent — ROOT's
big TKey layout (4+2+4+4+2+2+8+8 = 34 bytes). -/
def key_header_bytes (fNbytes fVersion fObjlen fDatime fKeylen fCycle : Nat)
    (fSeekKey fSeekPdir : Int) : List Nat :=
  u32be fNbytes ++ u16be fVersion ++ u32be fObjlen ++ u32be fDatime ++ u16be fKeylen ++
    u16be fCycle ++ i64be fSeekKey ++ i64be fSeekPdir

/-- Modelled from the spec: `uproot.models.TBasket._tbasket_format2` (outside
the two source files), the basket sub-header of §4.9: version, buffer size,
element size, element count, last-byte offset (2+4+4+4+4 = 18 bytes). -/
def tbasket_subheader_bytes (fVersion fBufferSize fNevBufSize fNevBuf : Nat)
    (fLast : Int) : List Nat :=
  u16be fVersion ++ u32be fBufferSize ++ u32be fNevBufSize ++ u32be fNevBuf ++ i32be fLast

/-- The `fKeylen` computed in `write_jagged_basket` (`_cascadetree.py` lines
1225-1232): key-header size + the three serialized strings + sub-header size
+ 1 (the single zero byte that terminates the key, included in `fKeylen` per
the source comment). -/
def basket_key_len (classNameB nameB titleB : List Nat) : Nat :=
  34 + classNameB.length + nameB.length + titleB.length + 18 + 1

/-- The fields of the emitted jagged basket that the claims inspect, plus the
mutated offsets array (`write_jagged_basket` mutates its numpy argument in
place; `offsetsOut` is its final state, visible to the caller). -/
structure JaggedBasketResult where
  fKeylen : Nat
  fObjlen : Nat
  fNbytes : Nat
  fLast : Int
  fNevBufSize : Nat
  fNevBuf : Nat
  offsetsOut : List Int
  outBytes : List Nat

/-- Embedding of `write_jagged_basket` (`_cascadetree.py` lines 1220-1290).
`classNameB`, `nameB`, `titleB` are the serialized class/name/title strings,
`raw_array` the flat big-endian data bytes, `itemsize` the element size, and
`offsets` the i32 offsets array (`astype(">i4", copy=True)` in the caller).
The source mutates `offsets` in place (`offsets *= itemsize`,
`offsets += fKeylen`, both wrapping in int32, then reads `fLast = offsets[-1]`
and stores `offsets[-1] = 0`) and emits: key header, the three strings, the
basket sub-header, one zero byte, the data bytes, a big-endian u32 offsets
count, and the serialized offsets array.  (The source presumes `offsets` is
nonempty — `offsets[-1]` would otherwise raise.) -/
def write_jagged_basket (classNameB nameB titleB : List Nat) (fDatime : Nat)
    (location parent_location : Int) (raw_array : List Nat) (itemsize : Nat)
    (offsets : List Int) : JaggedBasketResult :=
  let fKeylen := basket_key_len classNameB nameB titleB
  let o1 := offsets.map (fun x => asInt32 (x * (itemsize : Int)))
  let o2 := o1.map (fun x => asInt32 (x + (fKeylen : Int)))
  let fLast := o2.getLastD 0
  let o3 := o2.dropLast ++ [0]
  let raw_offsets := o3.flatMap i32be
  let fObjlen := raw_array.length + 4 + raw_offsets.length
  { fKeylen := fKeylen
    fObjlen := fObjlen
    fNbytes := fKeylen + fObjlen
    fLast := fLast
    fNevBufSize := o3.length + 1
    fNevBuf := o3.length - 1
    offsetsOut := o3
    outBytes :=
      key_header_bytes (fKeylen + fObjlen) 1004 fObjlen fDatime fKeylen 0 location
          parent_location ++
        classNameB ++ nameB ++ titleB ++
        tbasket_subheader_bytes 3 32000 (o3.length + 1) (o3.length - 1) fLast ++
        [0] ++ raw_array ++ u32be o3.length ++ raw_offsets }

/-- The `fEntryOffsetLen` assignment `Tree.extend` performs right after the
call (`_cascadetree.py` line 691), on the (mutated) offsets array. -/
def extend_entry_offset_len (big_endian_offsets : List Int) : Nat :=
  4 * (big_endian_offsets.length - 1)

theorem asInt32_eq_self (y : Int) (h0 : 0 ≤ y) (h1 : y < 2 ^ 31) : asInt32 y = y := by
  have hmod : y.emod (2 ^ 32) = y := Int.emod_eq_of_lt h0 (by omega)
  rw [asInt32, hmod, toSigned32, if_pos (by omega)]
  exact Int.toNat_of_nonneg h0

theorem length_key_header_bytes (a b c d e f : Nat) (g h : Int) :
    (key_header_bytes a b c d e f g h).length = 34 := by
  simp [key_header_bytes, u32be, u16be, i64be]

-- Dropping the length of the six key-prefix blocks from their concatenation
-- with a three-block payload leaves exactly the payload.
theorem drop_concat9 (kh cb nb tb sh z ra u off : List Nat) (k : Nat)
    (hlen : kh.length + cb.length + nb.length + tb.length + sh.length + z.length = k) :
    (kh ++ cb ++ nb ++ tb ++ sh ++ z ++ ra ++ u ++ off).drop k = ra ++ u ++ off := by
  have hsplit : kh ++ cb ++ nb ++ tb ++ sh ++ z ++ ra ++ u ++ off =
      (kh ++ cb ++ nb ++ tb ++ sh ++ z) ++ (ra ++ u ++ off) := by
    simp [List.append_assoc]
  rw [hsplit]
  have hk : k = (kh ++ cb ++ nb ++ tb ++ sh ++ z).length := by
    simp [List.length_append]
    omega
  rw [hk]
  exact List.drop_left _ _

theorem length_tbasket_subheader_bytes (a b c d : Nat) (e : Int) :
    (tbasket_subheader_bytes a b c d e).length = 18 := by
  simp [tbasket_subheader_bytes, u32be, u16be, i32be]

/-- C5: for a jagged basket with offsets `o` (first element 0) and data of
element size `s`, the bytes emitted after the `fKeylen`-byte key prefix (key
header, strings, sub-header and the key's terminating zero byte) are the raw
data bytes, then a big-endian u32 equal to `len(o)`, then `o * s + fKeylen`
with its last element replaced by 0; the sub-header's `fLast` holds the
original (unreplaced) last value `o[-1] * s + fKeylen`; and the
`fEntryOffsetLen` that `Tree.extend` then stores equals `4 * (len(o) - 1)`.
The range hypothesis keeps the int32 in-place scaling from wrapping. -/
theorem write_jagged_basket_layout (classNameB nameB titleB : List Nat) (fDatime : Nat)
    (location parent_location : Int) (raw_array : List Nat) (itemsize : Nat)
    (offsets : List Int) (hne : offsets ≠ []) (h0 : offsets.head? = some 0)
    (hrange : ∀ x ∈ offsets, 0 ≤ x ∧
      x * (itemsize : Int) + (basket_key_len classNameB nameB titleB : Int) < 2 ^ 31) :
    (write_jagged_basket classNameB nameB titleB fDatime location parent_location
          raw_array itemsize offsets).outBytes.drop
        (basket_key_len classNameB nameB titleB) =
      raw_array ++ u32be offsets.length ++
        ((offsets.map (fun x => x * (itemsize : Int) +
            (basket_key_len classNameB nameB titleB : Int))).dropLast ++ [0]).flatMap i32be ∧
    (write_jagged_basket classNameB nameB titleB fDatime location parent_location
          raw_array itemsize offsets).fLast =
      offsets.getLast hne * (itemsize : Int) +
        (basket_key_len classNameB nameB titleB : Int) ∧
    extend_entry_offset_len
        (write_jagged_basket classNameB nameB titleB fDatime location parent_location
          raw_array itemsize offsets).offsetsOut =
      4 * (offsets.length - 1) := by
  have hmap : (offsets.map (fun x => asInt32 (x * (itemsize : Int)))).map
      (fun x => asInt32 (x + (basket_key_len classNameB nameB titleB : Int))) =
      offsets.map (fun x => x * (itemsize : Int) +
        (basket_key_len classNameB nameB titleB : Int)) := by
    rw [List.map_map]
    apply List.map_congr_left
    intro a ha
    obtain ⟨ha0, ha1⟩ := hrange a ha
    have hs0 : (0 : Int) ≤ (itemsize : Int) := Int.natCast_nonneg _
    have hk0 : (0 : Int) ≤ (basket_key_len classNameB nameB titleB : Int) :=
      Int.natCast_nonneg _
    have hm0 : (0 : Int) ≤ a * (itemsize : Int) := mul_nonneg ha0 hs0
    have h1 : asInt32 (a * (itemsize : Int)) = a * (itemsize : Int) :=
      asInt32_eq_self _ hm0 (by linarith)
    show asInt32 (asInt32 (a * (itemsize : Int)) +
      (basket_key_len classNameB nameB titleB : Int)) = _
    rw [h1]
    exact asInt32_eq_self _ (by linarith) ha1
  have hpos : 0 < offsets.length := List.length_pos.mpr hne
  simp only [write_jagged_basket, hmap]
  refine ⟨?_, ?_, ?_⟩
  · have hlen3 : ((offsets.map (fun x => x * (itemsize : Int) +
        (basket_key_len classNameB nameB titleB : Int))).dropLast ++ [0]).length =
        offsets.length := by
      simp
      omega
    rw [hlen3]
    apply drop_concat9
    simp [length_key_header_bytes, length_tbasket_subheader_bytes, basket_key_len]
  · rw [List.getLastD_eq_getLast?, List.getLast?_map,
      List.getLast?_eq_getLast offsets hne]
    rfl
  · simp [extend_entry_offset_len]

/-- C5 witness: the layout theorem at a concrete basket — strings [1],[2],[3],
two i32 data elements, item size 4, offsets [0, 2]. -/
theorem write_jagged_basket_layout_witness :
    (([(0 : Int), 2] ≠ []) ∧ ([(0 : Int), 2].head? = some 0) ∧
      (∀ x ∈ [(0 : Int), 2], 0 ≤ x ∧
        x * (4 : Nat) + (basket_key_len [1] [2] [3] : Int) < 2 ^ 31)) ∧
      ((write_jagged_basket [1] [2] [3] 0 0 0 [9, 9, 9, 9, 9, 9, 9, 9] 4
            [0, 2]).outBytes.drop (basket_key_len [1] [2] [3]) =
        [9, 9, 9, 9, 9, 9, 9, 9] ++ u32be ([(0 : Int), 2].length) ++
          (([(0 : Int), 2].map (fun x => x * (4 : Nat) +
            (basket_key_len [1] [2] [3] : Int))).dropLast ++ [0]).flatMap i32be ∧
      (write_jagged_basket [1] [2] [3] 0 0 0 [9, 9, 9, 9, 9, 9, 9, 9] 4
          [0, 2]).fLast =
        [(0 : Int), 2].getLast (by decide) * (4 : Nat) +
          (basket_key_len [1] [2] [3] : Int) ∧
      extend_entry_offset_len
          (write_jagged_basket [1] [2] [3] 0 0 0 [9, 9, 9, 9, 9, 9, 9, 9] 4
            [0, 2]).offsetsOut =
        4 * ([(0 : Int), 2].length - 1)) :=
  ⟨⟨by decide, by decide, by decide⟩,
    write_jagged_basket_layout [1] [2] [3] 0 0 0 [9, 9, 9, 9, 9, 9, 9, 9] 4 [0, 2]
      (by decide) (by decide) (by decide)⟩
